import Mathlib

/-!
Verification of the FlowForge draw.io → Mermaid converter
(`src/flowforge/flowforge.py`, the hardened variant, which the spec's
design notes designate as the reference behavior).

The Python code is shallowly embedded:
* Python `dict` values become association lists with Python-dict
  semantics (insertion order, in-place overwrite on key reuse);
* `None`-able XML attributes become `Option String`;
* the element tree produced by `xml.etree.ElementTree` becomes the
  inductive `XmlElem`; the stdlib parser `ET.fromstring` itself (an
  external library, not repository code) is a parameter
  `et : String → Option XmlElem` (`none` = `ET.ParseError`);
* the non-marker branch of `_decompress_data` (regex + base64 + zlib,
  all external libraries) is a parameter `fallback`, so theorems about
  the marker short-circuit hold for every behavior of that branch;
* exceptions become `Except ConvErr`;
* the unbounded Python recursion of `_emit_subgraph_recursive` becomes
  a fuel-indexed function returning `none` on fuel exhaustion, which
  models the `RecursionError` swallowed by the caller's `except` block.

String primitives (split, strip, lower, replace, substring test) are
re-implemented structurally over `List Char` so that every definition
evaluates inside the kernel; each mirrors the Python string method it
stands for.
-/

namespace FlowForge

/-! ## Character-list string primitives (Python `str` methods) -/

/-- Python `s.split(sep)` for a one-character separator: split on every
occurrence, keeping empty fragments (so `"".split(';') == ['']`). -/
def splitChar (sep : Char) : List Char → List (List Char)
  | [] => [[]]
  | c :: rest =>
    let r := splitChar sep rest
    if c = sep then [] :: r
    else
      match r with
      | t :: ts => (c :: t) :: ts
      | [] => [[c]]

/-- Drop `p` from the front of `s`, or `none` when `p` is not a front
segment of `s`. -/
def dropFront : List Char → List Char → Option (List Char)
  | [], s => some s
  | _ :: _, [] => none
  | a :: p, b :: s => if a = b then dropFront p s else none

/-- Python `sep in s` / `p in s`: substring containment. -/
def containsChars (p : List Char) : List Char → Bool
  | [] => p.isEmpty
  | c :: s => ((dropFront p (c :: s)).isSome) || containsChars p s

/-- Python `s.startswith(p)`. -/
def startsWithChars (p s : List Char) : Bool :=
  (dropFront p s).isSome

/-- Python `s.split(sep, 1)` restricted to a one-character separator:
split at the first occurrence only, `none` when the separator is absent. -/
def splitFirst (sep : Char) : List Char → Option (List Char × List Char)
  | [] => none
  | c :: rest =>
    if c = sep then some ([], rest)
    else
      match splitFirst sep rest with
      | some (k, v) => some (c :: k, v)
      | none => none

/-- Python `s.replace(p, r)` with a non-empty pattern, fuel-indexed to
stay structurally recursive; `replaceChars` below supplies enough fuel. -/
def replaceCharsF (p r : List Char) : Nat → List Char → List Char
  | 0, s => s
  | _ + 1, [] => []
  | fuel + 1, c :: s =>
    match dropFront p (c :: s) with
    | some rest => if p.isEmpty then c :: replaceCharsF p r fuel s
                   else r ++ replaceCharsF p r fuel rest
    | none => c :: replaceCharsF p r fuel s

/-- Python `s.replace(p, r)`: replace every non-overlapping occurrence,
scanning left to right. -/
def replaceChars (p r s : List Char) : List Char :=
  replaceCharsF p r s.length s

def dropWhileWs : List Char → List Char
  | [] => []
  | c :: s => if c.isWhitespace then dropWhileWs s else c :: s

/-- Python `s.strip()`: remove leading and trailing whitespace. -/
def trimChars (s : List Char) : List Char :=
  (dropWhileWs (dropWhileWs s.reverse).reverse)

def strContains (s p : String) : Bool := containsChars p.data s.data

def strStartsWith (s p : String) : Bool := startsWithChars p.data s.data

def strTrim (s : String) : String := ⟨trimChars s.data⟩

/-- Python `s.lower()` (the style values compared by the code are
ASCII, where `Char.toLower` agrees with Python). -/
def strLower (s : String) : String := ⟨s.data.map Char.toLower⟩

def strReplace (s p r : String) : String := ⟨replaceChars p.data r.data s.data⟩

/-- Python `"\n".join(lines)`. -/
def joinLines : List String → String
  | [] => ""
  | [l] => l
  | l :: rest => l ++ "\n" ++ joinLines rest

/-! ## Style microparser -/

/-- A value in a parsed style dictionary: either a string value from a
`key=value` token, or the Python `True` stored for a bare flag token. -/
inductive StyleVal : Type where
  | str (s : String) : StyleVal
  | flagTrue : StyleVal
deriving DecidableEq, Repr, BEq

/-- Python-dict insert on an association list: overwrite in place when
the key exists (keeping its position), otherwise append at the end. -/
def dictInsert (m : List (String × StyleVal)) (k : String) (v : StyleVal) :
    List (String × StyleVal) :=
  if m.any (fun p => p.1 == k) then
    m.map (fun p => if p.1 == k then (k, v) else p)
  else
    m ++ [(k, v)]

/-- First-match lookup (keys are unique, so this is Python `dict.get`). -/
def dictGet (m : List (String × StyleVal)) (k : String) : Option StyleVal :=
  match m.find? (fun p => p.1 == k) with
  | some p => some p.2
  | none => none

/-- Split a token at its first `=`, keeping any further `=` characters in
the value (Python `token.split('=', 1)` guarded by `'=' in token`). -/
def splitFirstEq (t : String) : Option (String × String) :=
  match splitFirst '=' t.data with
  | some (k, v) => some (⟨k⟩, ⟨v⟩)
  | none => none

/-- One iteration of the token loop in `parse_style`
(`src/flowforge/flowforge.py` lines 65-71). -/
def styleToken (m : List (String × StyleVal)) (token : String) :
    List (String × StyleVal) :=
  match splitFirstEq token with
  | some (k, v) => dictInsert m k (.str v)
  | none => if token ≠ "" then dictInsert m token .flagTrue else m

/-- `parse_style` (`src/flowforge/flowforge.py` lines 52-72): split the
style string on `;` and fold the tokens into a dictionary; the empty
string (falsy in Python) yields the empty dictionary. -/
def parse_style (styleStr : String) : List (String × StyleVal) :=
  if styleStr = "" then []
  else ((splitChar ';' styleStr.data).map String.mk).foldl styleToken []

/-- The style microparser as worded by the spec (§4.1): split on `;`,
skip empty tokens, split each remaining token on its first `=`, store
key→value when `=` is present and key→true otherwise. -/
def specParseStyle (raw : String) : List (String × StyleVal) :=
  ((splitChar ';' raw.data).map String.mk).foldl
    (fun m token =>
      if token = "" then m
      else
        match splitFirstEq token with
        | some (k, v) => dictInsert m k (.str v)
        | none => dictInsert m token .flagTrue)
    []

/-! ## Graph model: nodes, edges, groups (`_build_diagram_from_root`) -/

/-- A decoded XML element, as produced by `xml.etree.ElementTree`:
tag name, attribute dictionary, direct children. -/
inductive XmlElem : Type where
  | mk (tag : String) (attrs : List (String × String)) (children : List XmlElem) : XmlElem

def XmlElem.tag : XmlElem → String
  | .mk t _ _ => t

def XmlElem.attrs : XmlElem → List (String × String)
  | .mk _ a _ => a

def XmlElem.children : XmlElem → List XmlElem
  | .mk _ _ c => c

/-- `element.get(key)`: attribute lookup, `none` for a missing attribute. -/
def XmlElem.attrGet (e : XmlElem) (k : String) : Option String :=
  match e.attrs.find? (fun p => p.1 == k) with
  | some p => some p.2
  | none => none

/-- `element.findall(tag)`: the direct children with the given tag. -/
def XmlElem.findall (e : XmlElem) (t : String) : List XmlElem :=
  e.children.filter (fun c => c.tag == t)

/-- `element.find(tag)`: the first direct child with the given tag. -/
def XmlElem.find (e : XmlElem) (t : String) : Option XmlElem :=
  (e.findall t).head?

/-- A built node.  `id` and `parent` mirror `cell.get("id")` /
`cell.get("parent")`, which are `None` when the attribute is absent. -/
structure Node where
  id : Option String
  label : String
  style : String
  styleDict : List (String × StyleVal)
  geometry : List (String × String)
  parent : Option String
deriving DecidableEq, Repr

structure Edge where
  id : Option String
  source : Option String
  target : Option String
  label : String
  style : String
  styleDict : List (String × StyleVal)
deriving DecidableEq, Repr

/-- A group entry of `diagram["groups"]`: display label and the member
nodes in registration order. -/
structure Group where
  label : String
  children : List Node
deriving DecidableEq, Repr

structure Diagram where
  nodes : List Node
  edges : List Edge
  groups : List (String × Group)
deriving DecidableEq, Repr

/-- Python-dict insert for `self.node_map[cell_id] = node` (a `None` id is
a legal dict key in Python). -/
def nmInsert (nm : List (Option String × Node)) (k : Option String) (n : Node) :
    List (Option String × Node) :=
  if nm.any (fun p => p.1 == k) then
    nm.map (fun p => if p.1 == k then (k, n) else p)
  else
    nm ++ [(k, n)]

def nmGet (nm : List (Option String × Node)) (k : Option String) : Option Node :=
  match nm.find? (fun p => p.1 == k) with
  | some p => some p.2
  | none => none

/-- Python `key in self.node_map`. -/
def nmHasKey (nm : List (Option String × Node)) (k : Option String) : Bool :=
  nm.any (fun p => p.1 == k)

def mkNodeFromCell (c : XmlElem) (cid : Option String) : Node :=
  let style := (c.attrGet "style").getD ""
  { id := cid
    label := (c.attrGet "value").getD ""
    style := style
    styleDict := parse_style style
    geometry := (match c.find "mxGeometry" with
      | some g => g.attrs
      | none => [])
    parent := c.attrGet "parent" }

def mkEdgeFromCell (c : XmlElem) (cid : Option String) : Edge :=
  { id := cid
    source := c.attrGet "source"
    target := c.attrGet "target"
    label := (c.attrGet "value").getD ""
    style := (c.attrGet "style").getD ""
    styleDict := parse_style ((c.attrGet "style").getD "") }

/-- The `mxCell` classification loop of `_build_diagram_from_root`
(`src/flowforge/flowforge.py` lines 398-429): skip the reserved ids
`"0"`/`"1"`, collect vertices as nodes (also into the node map) and
edge-marked cells as edges, ignore the rest. -/
def processCells (cells : List XmlElem) :
    List Node × List Edge × List (Option String × Node) :=
  cells.foldl
    (fun acc c =>
      let cid := c.attrGet "id"
      if cid = some "0" ∨ cid = some "1" then acc
      else if c.attrGet "vertex" = some "1" then
        let n := mkNodeFromCell c cid
        (acc.1 ++ [n], acc.2.1, nmInsert acc.2.2 cid n)
      else if c.attrGet "edge" = some "1" then
        (acc.1, acc.2.1 ++ [mkEdgeFromCell c cid], acc.2.2)
      else acc)
    ([], [], [])

/-- Register a node as a member of its parent's group, creating the group
on first sight with the parent's label or a generated placeholder
(`src/flowforge/flowforge.py` lines 439-444). -/
def registerGroup (gs : List (String × Group)) (p : String) (plabel : String)
    (n : Node) : List (String × Group) :=
  if gs.any (fun q => q.1 == p) then
    gs.map (fun q => if q.1 == p then (q.1, ⟨q.2.label, q.2.children ++ [n]⟩) else q)
  else
    gs ++ [(p, ⟨(if plabel ≠ "" then plabel else "Group_" ++ p), [n]⟩)]

/-- The group-detection loop (`src/flowforge/flowforge.py` lines 434-444):
a node joins a group when its parent id is truthy, resolves in the node
map, and the parent's raw style contains `group` or `swimlane`. -/
def collectGroups (nm : List (Option String × Node)) (nodes : List Node) :
    List (String × Group) :=
  nodes.foldl
    (fun gs n =>
      match n.parent with
      | some p =>
        if p ≠ "" then
          match nmGet nm (some p) with
          | some pn =>
            if strContains pn.style "group" || strContains pn.style "swimlane" then
              registerGroup gs p pn.label n
            else gs
          | none => gs
        else gs
      | none => gs)
    []

/-- `_build_diagram_from_root` (`src/flowforge/flowforge.py` lines
369-445): descend from a `diagram` wrapper into `mxGraphModel` if needed,
fall back to the model element itself when no `<root>` child exists, then
classify cells and detect groups. -/
def build_diagram_from_root (root0 : XmlElem) :
    Diagram × List (Option String × Node) :=
  let root := if root0.tag == "diagram" then
      (match root0.find "mxGraphModel" with
       | some m => m
       | none => root0)
    else root0
  let diagramRoot := match root.find "root" with
    | some r => r
    | none => root
  let (ns, es, nm) := processCells (diagramRoot.findall "mxCell")
  (⟨ns, es, collectGroups nm ns⟩, nm)

/-! ## Mermaid emission -/

/-- Whether `style.get("shape", "").lower()` evaluates without error:
`none` models the `AttributeError` Python raises when the `shape` entry is
the bare-flag value `True` (booleans have no `.lower()`). -/
def shapeValue (sd : List (String × StyleVal)) : Option String :=
  match dictGet sd "shape" with
  | some (.str s) => some (strLower s)
  | some .flagTrue => none
  | none => some ""

/-- `_format_node` (`src/flowforge/flowforge.py` lines 448-469).  The
result is `none` exactly when Python raises: a `None` id (`"N" + None` is
a `TypeError`) or a bare-flag `shape` entry; the caller catches and skips
those nodes. -/
def format_node (n : Node) : Option String :=
  match n.id, shapeValue n.styleDict with
  | some i, some shape =>
    let label := if n.label ≠ "" then strTrim n.label else "Node_" ++ i
    let nodeId := "N" ++ i
    some
      (if shape = "rhombus" then nodeId ++ "\x7b\"" ++ label ++ "\"\x7d"
       else if shape = "ellipse" ∨ (dictGet n.styleDict "ellipse").isSome then
         nodeId ++ "(( \"" ++ label ++ "\" ))"
       else if dictGet n.styleDict "rounded" = some (.str "1") ∨ shape = "stadium" then
         nodeId ++ "(\"" ++ label ++ "\")"
       else nodeId ++ "[\"" ++ label ++ "\"]")
  | _, _ => none

/-- Python truthiness of `style.get("dashed")`: the flag `True` is truthy,
a string value is truthy when non-empty, a missing key gives `None`. -/
def styleTruthy : Option StyleVal → Bool
  | some .flagTrue => true
  | some (.str s) => !(s == "")
  | none => false

/-- `_format_edge` (`src/flowforge/flowforge.py` lines 471-493).  `none`
models the `TypeError` of `"N" + None` on a missing endpoint id. -/
def format_edge (e : Edge) : Option String :=
  match e.source, e.target with
  | some s, some t =>
    let src := "N" ++ s
    let tgt := "N" ++ t
    let label := strTrim e.label
    let dashed := dictGet e.styleDict "dashed"
    let arrow0 := if styleTruthy dashed ∨ dashed = some (.str "1") then "-.->" else "-->"
    let arrow := if dictGet e.styleDict "endArrow" = some (.str "none") then
        strReplace arrow0 "->" "-"
      else arrow0
    some
      (if label ≠ "" then src ++ " -- \"" ++ label ++ "\" " ++ arrow ++ " " ++ tgt
       else src ++ " " ++ arrow ++ " " ++ tgt)
  | _, _ => none

/-- `"    " * indent_level`. -/
def indentStr : Nat → String
  | 0 => ""
  | n + 1 => indentStr n ++ "    "

def lookupGroup (gs : List (String × Group)) (gid : String) : Option Group :=
  match gs.find? (fun q => q.1 == gid) with
  | some q => some q.2
  | none => none

/-- The `child_id in self.diagram["groups"]` test of the subgraph
recursion: a child participates as a nested group only when its id is
present and registered. -/
def childGroup (gs : List (String × Group)) (c : Node) : Option (String × Group) :=
  match c.id with
  | some i =>
    (match lookupGroup gs i with
     | some g => some (i, g)
     | none => none)
  | none => none

/-- The member loop of `_emit_subgraph_recursive`, parameterized by the
recursive continuation `f` for nested groups; a failing `_format_node`
(modelled by `none`) is caught and the member skipped. -/
def emitChildrenWith (f : String → Group → Option (List String))
    (gs : List (String × Group)) (indent : String) :
    List Node → Option (List String)
  | [] => some []
  | c :: rest =>
    match childGroup gs c with
    | some (i, ng) =>
      match f i ng with
      | none => none
      | some ls =>
        match emitChildrenWith f gs indent rest with
        | none => none
        | some ls2 => some (ls ++ ls2)
    | none =>
      match format_node c with
      | some ln =>
        match emitChildrenWith f gs indent rest with
        | none => none
        | some ls2 => some ((indent ++ "    " ++ ln) :: ls2)
      | none => emitChildrenWith f gs indent rest

/-- `_emit_subgraph_recursive` (`src/flowforge/flowforge.py` lines
496-520), fuel-indexed: the Python recursion carries no depth guard, and
`none` (fuel exhausted) models the `RecursionError` that a cyclic group
graph produces, which the caller's `except` swallows. -/
def emitSubgraphRec (gs : List (String × Group)) :
    Nat → String → Group → Nat → Option (List String)
  | 0, _, _, _ => none
  | fuel + 1, gid, g, ind =>
    let indent := indentStr ind
    match emitChildrenWith (fun cid ng => emitSubgraphRec gs fuel cid ng (ind + 1))
        gs indent g.children with
    | none => none
    | some body =>
      some ((indent ++ "subgraph " ++ gid ++ "[" ++ g.label ++ "]") :: body
        ++ [indent ++ "end"])

/-- The group-emission loop of `_emit_mermaid` (`src/flowforge/flowforge.py`
lines 541-548): every entry of the group index is emitted at top level in
insertion order; on success its lines are appended and its direct members
recorded as emitted; on failure (the caught exception) neither happens. -/
def groupsPass (gs : List (String × Group)) (fuel : Nat) :
    List (String × Group) → List String × List (Option String)
  | [] => ([], [])
  | (gid, g) :: rest =>
    let r := groupsPass gs fuel rest
    match emitSubgraphRec gs fuel gid g 0 with
    | some gls => (gls ++ r.1, g.children.map (fun n => n.id) ++ r.2)
    | none => r

/-- The ungrouped-node loop of `_emit_mermaid` (lines 550-556): emit every
node whose id was not recorded during group emission. -/
def flatPass (em : List (Option String)) : List Node → List String
  | [] => []
  | n :: rest =>
    if em.contains n.id then flatPass em rest
    else
      match format_node n with
      | some ln => ln :: flatPass em rest
      | none => flatPass em rest

/-- The edge loop of `_emit_mermaid` (lines 558-566): an edge whose source
or target is not a key of the node map is skipped; a formatting error
(`none`) is also caught and skipped. -/
def edgesPass (nm : List (Option String × Node)) : List Edge → List String
  | [] => []
  | e :: rest =>
    if nmHasKey nm e.source && nmHasKey nm e.target then
      match format_edge e with
      | some ln => ln :: edgesPass nm rest
      | none => edgesPass nm rest
    else edgesPass nm rest

/-- `_emit_mermaid` (lines 522-568) as the list of emitted lines: header,
group blocks, ungrouped nodes, edges.  An unsupported diagram type only
logs a warning and still emits a flowchart header. -/
def emit_mermaid (fuel : Nat) (d : Diagram) (nm : List (Option String × Node))
    (direction diagramType : String) : List String :=
  let header := if diagramType == "flowchart" then "flowchart " ++ direction
    else "flowchart " ++ direction
  let gp := groupsPass d.groups fuel d.groups
  header :: (gp.1 ++ flatPass gp.2 d.nodes ++ edgesPass nm d.edges)

/-! ## Extraction and the conversion orchestrator -/

inductive ConvErr : Type where
  | decompressionError : ConvErr
  | parsingError : ConvErr
  | indexError : ConvErr
deriving DecidableEq, Repr

deriving instance DecidableEq for Except

/-- `"<mxGraphModel" in xml_data`. -/
def markerPresent (s : String) : Bool :=
  strContains s "<mxGraphModel"

/-- `_decompress_data` (`src/flowforge/flowforge.py` lines 126-308).  The
function's first action (lines 135-138) is the graph-model-marker
short-circuit; the whole remaining body (the `<diagram>` regex scan,
mxfile parse, URL/base64 decoding and the zlib/gzip cascade — all driven
by external libraries) is abstracted as `fallback`, so any theorem about
the marker branch holds however that remainder behaves. -/
def decompress_data (fallback : String → Bool → Except ConvErr (List String))
    (xmlData : String) (strictMode : Bool) : Except ConvErr (List String) :=
  if markerPresent xmlData then Except.ok [xmlData]
  else fallback xmlData strictMode

def xmlProlog : String := "<?xml version=\"1.0\" encoding=\"UTF-8\"?>\n"

/-- The input normalization at the top of `_parse_xml` (lines 332-342):
rewrite `&nbsp;`, synthesize a missing XML prolog when the marker is
present, wrap a bare `mxGraphModel` fragment in a `diagram` element. -/
def normalizeXml (xmlData : String) : String :=
  let s1 := strReplace xmlData "&nbsp;" "&#160;"
  let s2 := if !(strStartsWith (strTrim s1) "<?xml") && markerPresent s1 then
      xmlProlog ++ s1
    else s1
  if strStartsWith (strTrim s2) "<mxGraphModel"
      && !(strStartsWith (strTrim s2) "<diagram") then
    "<diagram>" ++ s2 ++ "</diagram>"
  else s2

/-- The wrapper descent of `_parse_xml` (lines 346-359): step from a
`diagram` element to its first `mxGraphModel` child, or from an `mxfile`
element through its first `diagram` page. -/
def locateRoot (root : XmlElem) : XmlElem :=
  if root.tag == "diagram" then
    match (root.children.filter (fun c => c.tag == "mxGraphModel")).head? with
    | some m => m
    | none => root
  else if root.tag == "mxfile" then
    match root.find "diagram" with
    | some d =>
      (match d.find "mxGraphModel" with
       | some m => m
       | none => root)
    | none => root
  else root

/-- `_parse_xml` (lines 324-367).  `et` stands for the external
`ET.fromstring`; `et s = none` models an `ET.ParseError`, which is raised
as `DiagramParsingError` in strict mode and swallowed (returning `None`)
otherwise. -/
def parse_xml (et : String → Option XmlElem) (xmlData : String)
    (strictMode : Bool) : Except ConvErr (Option XmlElem) :=
  match et (normalizeXml xmlData) with
  | some root => Except.ok (some (locateRoot root))
  | none =>
    if strictMode then Except.error ConvErr.parsingError
    else Except.ok none

/-- The tail of `convert` (lines 602-607): parse the selected page, return
empty text when no root came back, otherwise build and emit. -/
def convertPage (et : String → Option XmlElem) (pages : List String) (idx : Nat)
    (direction diagramType : String) (strictMode : Bool) (fuel : Nat) :
    Except ConvErr String :=
  let page := (pages.get? idx).getD ""
  match parse_xml et page strictMode with
  | Except.error e => Except.error e
  | Except.ok none => Except.ok ""
  | Except.ok (some root) =>
    let dm := build_diagram_from_root root
    Except.ok (joinLines (emit_mermaid fuel dm.1 dm.2 direction diagramType))

/-- The body of `convert` (lines 582-609): extract pages, handle the
zero-page and out-of-range cases per policy (out of range falls back to
page 0 in relaxed mode), then parse/build/emit the selected page. -/
def convertCore (fallback : String → Bool → Except ConvErr (List String))
    (et : String → Option XmlElem) (inputData : String) (diagramIndex : Int)
    (direction diagramType : String) (strictMode : Bool) (fuel : Nat) :
    Except ConvErr String :=
  match decompress_data fallback inputData strictMode with
  | Except.error e => Except.error e
  | Except.ok pages =>
    if pages.isEmpty then
      if strictMode then Except.error ConvErr.decompressionError
      else Except.ok ""
    else if diagramIndex < 0 ∨ (pages.length : Int) ≤ diagramIndex then
      if strictMode then Except.error ConvErr.indexError
      else convertPage et pages 0 direction diagramType strictMode fuel
    else convertPage et pages diagramIndex.toNat direction diagramType strictMode fuel

/-- `convert` (lines 571-615): the body above inside the outer
`try/except` — in strict mode every error propagates, in relaxed mode any
escaping error is logged and empty text returned. -/
def convert (fallback : String → Bool → Except ConvErr (List String))
    (et : String → Option XmlElem) (inputData : String) (diagramIndex : Int)
    (direction diagramType : String) (strictMode : Bool) (fuel : Nat) :
    Except ConvErr String :=
  match convertCore fallback et inputData diagramIndex direction diagramType
      strictMode fuel with
  | Except.error e => if strictMode then Except.error e else Except.ok ""
  | Except.ok s => Except.ok s

/-! ## Definitions written from the claims' words (for refinement claims) -/

/-- C2's node line as the claim words it: label is the trimmed label or
the `Node_<id>` placeholder when empty; first matching shape rule wins
(`shape` being the style's shape value as the code compares it,
lower-cased). -/
def claimNodeLine (n : Node) (i : String) : String :=
  let label := if n.label = "" then "Node_" ++ i else strTrim n.label
  let nid := "N" ++ i
  let shape := strLower
    (match dictGet n.styleDict "shape" with
     | some (.str s) => s
     | _ => "")
  if shape = "rhombus" then nid ++ "\x7b\"" ++ label ++ "\"\x7d"
  else if shape = "ellipse" ∨ (dictGet n.styleDict "ellipse").isSome then
    nid ++ "(( \"" ++ label ++ "\" ))"
  else if dictGet n.styleDict "rounded" = some (.str "1") ∨ shape = "stadium" then
    nid ++ "(\"" ++ label ++ "\")"
  else nid ++ "[\"" ++ label ++ "\"]"

/-- C3's edge line as the claim words it: the connector is `-->` by
default, `-.->` exactly for a `dashed` flag or `dashed=1`, with the
arrowhead stripped to `--` / `-.-` under `endArrow=none`; a non-empty
trimmed label is rendered inline. -/
def claimEdgeLine (e : Edge) : Option String :=
  match e.source, e.target with
  | some s, some t =>
    let src := "N" ++ s
    let tgt := "N" ++ t
    let label := strTrim e.label
    let arrow0 := if dictGet e.styleDict "dashed" = some .flagTrue
        ∨ dictGet e.styleDict "dashed" = some (.str "1") then "-.->"
      else "-->"
    let arrow := if dictGet e.styleDict "endArrow" = some (.str "none") then
        (if arrow0 = "-.->" then "-.-" else "--")
      else arrow0
    some
      (if label ≠ "" then src ++ " -- \"" ++ label ++ "\" " ++ arrow ++ " " ++ tgt
       else src ++ " " ++ arrow ++ " " ++ tgt)
  | _, _ => none

/-- C3 amended: as `claimEdgeLine`, except the dotted connector is chosen
whenever the `dashed` key is present with a Python-truthy value — the
bare flag or any non-empty string value (so `dashed=0` is also dotted,
and `dashed=` with an empty value is not). -/
def amendedEdgeLine (e : Edge) : Option String :=
  match e.source, e.target with
  | some s, some t =>
    let src := "N" ++ s
    let tgt := "N" ++ t
    let label := strTrim e.label
    let arrow0 := if styleTruthy (dictGet e.styleDict "dashed") then "-.->"
      else "-->"
    let arrow := if dictGet e.styleDict "endArrow" = some (.str "none") then
        (if arrow0 = "-.->" then "-.-" else "--")
      else arrow0
    some
      (if label ≠ "" then src ++ " -- \"" ++ label ++ "\" " ++ arrow ++ " " ++ tgt
       else src ++ " " ++ arrow ++ " " ++ tgt)
  | _, _ => none

/-- One recursion step of the subgraph emitter, as a relation on group
ids: the emitter at group `parent` recurses into `child` when some member
node of `parent`'s group carries `child` as id and `child` is itself a
registered group. -/
def groupStep (gs : List (String × Group)) (parent child : String) : Prop :=
  ∃ g, lookupGroup gs parent = some g
    ∧ (∃ n ∈ g.children, n.id = some child)
    ∧ (lookupGroup gs child).isSome = true

/-! ## Concrete scenario inputs (from the spec's testable properties) -/

/-- Scenario A input: one vertex id=2, label `Start`, style `rounded=1`. -/
def rootA : XmlElem :=
  .mk "mxGraphModel" []
    [.mk "root" []
      [.mk "mxCell" [("id", "0")] [],
       .mk "mxCell" [("id", "1"), ("parent", "0")] [],
       .mk "mxCell"
         [("id", "2"), ("value", "Start"), ("style", "rounded=1"),
          ("vertex", "1"), ("parent", "1")] []]]

def builtA : Diagram × List (Option String × Node) :=
  build_diagram_from_root rootA

/-- Scenario B input: plain rectangles 2 and 3 and a dashed labelled edge
from 2 to 3. -/
def rootB : XmlElem :=
  .mk "mxGraphModel" []
    [.mk "root" []
      [.mk "mxCell" [("id", "0")] [],
       .mk "mxCell" [("id", "1"), ("parent", "0")] [],
       .mk "mxCell"
         [("id", "2"), ("value", "A"), ("vertex", "1"), ("parent", "1")] [],
       .mk "mxCell"
         [("id", "3"), ("value", "B"), ("vertex", "1"), ("parent", "1")] [],
       .mk "mxCell"
         [("id", "4"), ("value", "go"), ("style", "dashed=1"), ("edge", "1"),
          ("source", "2"), ("target", "3"), ("parent", "1")] []]]

def builtB : Diagram × List (Option String × Node) :=
  build_diagram_from_root rootB

/-- Scenario C input: swimlane container id=5 with member node id=6. -/
def rootC : XmlElem :=
  .mk "mxGraphModel" []
    [.mk "root" []
      [.mk "mxCell" [("id", "0")] [],
       .mk "mxCell" [("id", "1"), ("parent", "0")] [],
       .mk "mxCell"
         [("id", "5"), ("value", "Lane"), ("style", "swimlane"),
          ("vertex", "1"), ("parent", "1")] [],
       .mk "mxCell"
         [("id", "6"), ("value", "Task"), ("vertex", "1"), ("parent", "5")] []]]

def builtC : Diagram × List (Option String × Node) :=
  build_diagram_from_root rootC

/-- Input with edges whose endpoints cannot be resolved: edge 4 targets
the absent id 9, edge 7 has no source attribute at all. -/
def rootD : XmlElem :=
  .mk "mxGraphModel" []
    [.mk "root" []
      [.mk "mxCell" [("id", "0")] [],
       .mk "mxCell" [("id", "1"), ("parent", "0")] [],
       .mk "mxCell"
         [("id", "2"), ("value", "A"), ("vertex", "1"), ("parent", "1")] [],
       .mk "mxCell"
         [("id", "3"), ("value", "B"), ("vertex", "1"), ("parent", "1")] [],
       .mk "mxCell"
         [("id", "4"), ("edge", "1"), ("source", "2"), ("target", "9"),
          ("parent", "1")] [],
       .mk "mxCell"
         [("id", "7"), ("edge", "1"), ("target", "3"), ("parent", "1")] []]]

def builtD : Diagram × List (Option String × Node) :=
  build_diagram_from_root rootD

/-- Nested-group input: swimlane 5 contains swimlane 6, which contains
node 7. -/
def rootN : XmlElem :=
  .mk "mxGraphModel" []
    [.mk "root" []
      [.mk "mxCell" [("id", "0")] [],
       .mk "mxCell" [("id", "1"), ("parent", "0")] [],
       .mk "mxCell"
         [("id", "5"), ("value", "Outer"), ("style", "swimlane"),
          ("vertex", "1"), ("parent", "1")] [],
       .mk "mxCell"
         [("id", "6"), ("value", "Inner"), ("style", "swimlane"),
          ("vertex", "1"), ("parent", "5")] [],
       .mk "mxCell"
         [("id", "7"), ("value", "Leaf"), ("vertex", "1"), ("parent", "6")] []]]

def builtN : Diagram × List (Option String × Node) :=
  build_diagram_from_root rootN

/-- The edge of the C3 counterexample: `dashed=0`, no label. -/
def edgeDashed0 : Edge :=
  ⟨some "4", some "2", some "3", "", "dashed=0", parse_style "dashed=0"⟩

/-- A one-group model (no nesting) for the C10 witness. -/
def nodeW6 : Node := ⟨some "6", "Task", "", [], [], some "5"⟩

def groupW : Group := ⟨"Lane", [nodeW6]⟩

def gsW : List (String × Group) := [("5", groupW)]

/-- The member node of scenario C's group, as built from `rootC`. -/
def nodeC6 : Node := ⟨some "6", "Task", "", [], [], some "5"⟩

/-- The member node of the nested group `"6"`, as built from `rootN`. -/
def nodeN7 : Node := ⟨some "7", "Leaf", "", [], [], some "6"⟩

/-- Models `ET.fromstring` failing with `ParseError` on every input — in
the C8 theorems it is applied only to the page `"<mxGraphModel"`, whose
normalized form has an unterminated tag and is rejected by the real
parser. -/
def etFail : String → Option XmlElem := fun _ => none

/-- A fallback whose result differs from the marker short-circuit, to
exhibit that the short-circuit never consults it. -/
def fbOther : String → Bool → Except ConvErr (List String) :=
  fun _ _ => Except.ok ["OTHER"]

theorem styleToken_eq_specStep (m : List (String × StyleVal)) (token : String) :
    styleToken m token =
      (if token = "" then m
       else
         match splitFirstEq token with
         | some (k, v) => dictInsert m k (.str v)
         | none => dictInsert m token .flagTrue) := by
  by_cases h : token = ""
  · subst h
    simp [styleToken, splitFirstEq, splitFirst]
  · simp only [styleToken, h, if_false]
    cases splitFirstEq token <;> simp [h]

/-- **C9.** `parse_style` realizes the spec's microparser contract: it
splits on `;`, maps each non-empty `key=value` token to the full
remainder after the first `=` (keeping later `=` characters, not
re-split), maps each non-empty flag token to `true`, yields the empty
map on empty input, and is a total function preserving unknown keys
verbatim.  Stated as extensional equality with `specParseStyle`, the
parser written from the spec's words, together with concrete checks of
the remainder-not-resplit, flag, and empty-input behaviors. -/
theorem parse_style_meets_spec :
    (∀ s : String, parse_style s = specParseStyle s) ∧
    parse_style "a=b=c" = [("a", .str "b=c")] ∧
    parse_style "" = [] ∧
    parse_style "x;;y=1" = [("x", .flagTrue), ("y", .str "1")] := by
  have hfun : styleToken =
      (fun m token =>
        if token = "" then m
        else
          match splitFirstEq token with
          | some (k, v) => dictInsert m k (.str v)
          | none => dictInsert m token .flagTrue) := by
    funext m token
    exact styleToken_eq_specStep m token
  refine ⟨fun s => ?_, by decide, by decide, by decide⟩
  by_cases h : s = ""
  · subst h
    decide
  · simp only [parse_style, h, if_false, specParseStyle, hfun]

/-- C1: an input containing the graph-model marker anywhere is returned
by `_decompress_data` as the single extraction result, unchanged, in both
strict and relaxed modes — and whatever the rest of the extraction
pipeline would have produced, since the short-circuit never consults it:
no `<diagram>` fragment or other candidate is considered. -/
theorem marker_input_is_single_page
    (fallback : String → Bool → Except ConvErr (List String))
    (input : String) (strictMode : Bool)
    (h : markerPresent input = true) :
    decompress_data fallback input strictMode = Except.ok [input] := by
  simp [decompress_data, h]

/-- Witness for C1 at an input that also contains a `<diagram>` wrapper
fragment, against a fallback that would have returned a different page
list. -/
theorem marker_input_is_single_page_witness :
    markerPresent "<diagram>abc</diagram><mxGraphModel/>" = true ∧
    decompress_data fbOther "<diagram>abc</diagram><mxGraphModel/>" true
      = Except.ok ["<diagram>abc</diagram><mxGraphModel/>"] ∧
    decompress_data fbOther "<diagram>abc</diagram><mxGraphModel/>" false
      = Except.ok ["<diagram>abc</diagram><mxGraphModel/>"] :=
  ⟨by decide,
   marker_input_is_single_page fbOther _ true (by decide),
   marker_input_is_single_page fbOther _ false (by decide)⟩

/-- C2: for every built node that the emitter renders (id present, and
the `shape` entry not a bare flag — the cases where Python's
`_format_node` returns instead of raising), the emitted line is exactly
the claim's first-matching-rule cascade `claimNodeLine`; and on the
scenario-A input the full pipeline emits `flowchart TD` followed by the
single line `N2("Start")`. -/
theorem node_line_matches_claim :
    (∀ (n : Node) (i : String), n.id = some i →
      dictGet n.styleDict "shape" ≠ some .flagTrue →
      format_node n = some (claimNodeLine n i)) ∧
    emit_mermaid 1 builtA.1 builtA.2 "TD" "flowchart"
      = ["flowchart TD", "N2(\"Start\")"] := by
  constructor
  · intro n i hid hsh
    have hsl : strLower "" = "" := rfl
    cases h : dictGet n.styleDict "shape" with
    | none =>
      by_cases hl : n.label = "" <;>
        simp [format_node, claimNodeLine, shapeValue, h, hid, hl, hsl]
    | some v =>
      cases v with
      | str s =>
        by_cases hl : n.label = "" <;>
          simp [format_node, claimNodeLine, shapeValue, h, hid, hl]
      | flagTrue => exact absurd h hsh
  · decide

/-- Witness for C2 at the scenario-A node. -/
theorem node_line_matches_claim_witness :
    format_node ⟨some "2", "Start", "rounded=1", parse_style "rounded=1", [], some "1"⟩
      = some (claimNodeLine
          ⟨some "2", "Start", "rounded=1", parse_style "rounded=1", [], some "1"⟩ "2") :=
  node_line_matches_claim.1 _ "2" rfl (by decide)

/-- C3 counterexample: on an unlabeled edge whose style is `dashed=0` —
neither a dashed flag nor `dashed=1`, so the claim prescribes the solid
default `-->` — the code emits the dotted `-.->`, because Python's
truthiness test `style.get("dashed")` accepts the non-empty string `"0"`. -/
theorem dashed_zero_refutes_claim :
    format_edge edgeDashed0 = some "N2 -.-> N3" ∧
    claimEdgeLine edgeDashed0 = some "N2 --> N3" ∧
    format_edge edgeDashed0 ≠ claimEdgeLine edgeDashed0 :=
  ⟨by decide, by decide, by decide⟩

/-- C3 amended: as the claim, except that the dotted connector is chosen
whenever the `dashed` key is present with a Python-truthy value — the
bare flag or any non-empty string value (so `dashed=0` is also dotted,
and `dashed=` with an empty value is not); head-stripping under
`endArrow=none` and inline labels are as claimed.  On the scenario-B
input the pipeline emits `N2["A"]`, `N3["B"]` and `N2 -- "go" -.-> N3`. -/
theorem edge_line_matches_amended :
    (∀ e : Edge, format_edge e = amendedEdgeLine e) ∧
    emit_mermaid 1 builtB.1 builtB.2 "TD" "flowchart"
      = ["flowchart TD", "N2[\"A\"]", "N3[\"B\"]", "N2 -- \"go\" -.-> N3"] := by
  have hrepl1 : strReplace "-->" "->" "-" = "--" := by decide
  have hrepl2 : strReplace "-.->" "->" "-" = "-.-" := by decide
  constructor
  · intro e
    cases hs : e.source with
    | none => simp [format_edge, amendedEdgeLine, hs]
    | some s =>
      cases ht : e.target with
      | none => simp [format_edge, amendedEdgeLine, hs, ht]
      | some t =>
        have himp : dictGet e.styleDict "dashed" = some (.str "1") →
            styleTruthy (dictGet e.styleDict "dashed") = true := by
          intro h1
          rw [h1]
          decide
        by_cases hd : styleTruthy (dictGet e.styleDict "dashed") = true
        · by_cases hend : dictGet e.styleDict "endArrow" = some (.str "none") <;>
            simp [format_edge, amendedEdgeLine, hs, ht, hd, hend, hrepl1, hrepl2]
        · have hne : ¬ dictGet e.styleDict "dashed" = some (.str "1") :=
            fun h1 => hd (himp h1)
          by_cases hend : dictGet e.styleDict "endArrow" = some (.str "none") <;>
            simp [format_edge, amendedEdgeLine, hs, ht, hd, hne, hend, hrepl1, hrepl2]
  · decide

/-- C4: the edge pass emits exactly the edges whose two endpoint ids are
both keys of the built node index — an edge with an unresolvable or
missing endpoint contributes nothing and raises nothing — and on the
`rootD` input (one edge targeting the absent id 9, one edge with no
source attribute) the full emission contains no edge line at all.  The
pass reads no policy flag, so strict and relaxed modes behave alike. -/
theorem unresolvable_edges_omitted :
    (∀ (nm : List (Option String × Node)) (es : List Edge),
      edgesPass nm es
        = (es.filter (fun e => nmHasKey nm e.source && nmHasKey nm e.target)).filterMap
            format_edge) ∧
    emit_mermaid 1 builtD.1 builtD.2 "TD" "flowchart"
      = ["flowchart TD", "N2[\"A\"]", "N3[\"B\"]"] := by
  constructor
  · intro nm es
    induction es with
    | nil => rfl
    | cons e rest ih =>
      by_cases h : (nmHasKey nm e.source && nmHasKey nm e.target) = true
      · simp only [edgesPass, h, if_true, List.filter_cons, List.filterMap_cons]
        cases format_edge e <;> simp [ih]
      · simp only [edgesPass, List.filter_cons, h]
        simp [ih, h]
  · decide

theorem flatPass_skip (em : List (Option String)) (oid : Option String)
    (hmem : em.contains oid = true) :
    ∀ nodes : List Node,
      flatPass em nodes = flatPass em (nodes.filter (fun m => !(m.id == oid))) := by
  intro nodes
  induction nodes with
  | nil => rfl
  | cons m rest ih =>
    by_cases hm : (m.id == oid) = true
    · have hEq : m.id = oid := eq_of_beq hm
      have hcont : em.contains m.id = true := by rw [hEq]; exact hmem
      have hmm : m.id ∈ em := List.elem_iff.mp hcont
      simp [flatPass, List.filter_cons, hm, hcont, hmm, ih]
    · simp only [List.filter_cons]
      rw [Bool.not_eq_true] at hm
      simp only [flatPass, hm, Bool.not_false, if_true]
      by_cases hc : em.contains m.id = true
      · simp [flatPass, hc, ih]
      · simp only [flatPass, Bool.not_eq_true] at hc ⊢
        rw [hc]
        cases format_node m <;> simp [ih]

theorem groupsPass_emits_children (gs : List (String × Group)) (fuel : Nat)
    (l : List (String × Group)) (gid : String) (g : Group) (n : Node)
    (hg : (gid, g) ∈ l) (hn : n ∈ g.children)
    (hsome : (emitSubgraphRec gs fuel gid g 0).isSome = true) :
    n.id ∈ (groupsPass gs fuel l).2 := by
  induction l with
  | nil => cases hg
  | cons p rest ih =>
    obtain ⟨pgid, pg⟩ := p
    rcases List.mem_cons.mp hg with hhead | htail
    · obtain ⟨h1, h2⟩ := Prod.mk.injEq .. ▸ hhead
      subst h1
      subst h2
      obtain ⟨ls, hls⟩ := Option.isSome_iff_exists.mp hsome
      simp only [groupsPass, hls]
      exact List.mem_append_left _ (List.mem_map.mpr ⟨n, hn, rfl⟩)
    · have hrec := ih htail
      simp only [groupsPass]
      cases hout : emitSubgraphRec gs fuel pgid pg 0 with
      | none => exact hrec
      | some ls => exact List.mem_append_right _ hrec

/-- C5: a node that is a member of any group (at any nesting depth —
every registered group's direct members are covered) is recorded as
emitted by the group pass, so the flat ungrouped pass skips every node
carrying its id, provided each group's recursive emission succeeds (the
normal, acyclic case); and on the scenario-C input node 6 appears only
inside the `subgraph 5[Lane] … end` block and not as a flat line. -/
theorem grouped_nodes_excluded_from_flat_pass :
    (∀ (gs : List (String × Group)) (fuel : Nat) (gid : String) (g : Group)
        (n : Node),
      (gid, g) ∈ gs → n ∈ g.children →
      (∀ p ∈ gs, (emitSubgraphRec gs fuel p.1 p.2 0).isSome = true) →
      n.id ∈ (groupsPass gs fuel gs).2 ∧
      ∀ nodes : List Node,
        flatPass (groupsPass gs fuel gs).2 nodes
          = flatPass (groupsPass gs fuel gs).2
              (nodes.filter (fun m => !(m.id == n.id)))) ∧
    emit_mermaid 2 builtC.1 builtC.2 "TD" "flowchart"
      = ["flowchart TD", "subgraph 5[Lane]", "    N6[\"Task\"]", "end",
         "N5[\"Lane\"]"] := by
  constructor
  · intro gs fuel gid g n hg hn hall
    have hmem : n.id ∈ (groupsPass gs fuel gs).2 :=
      groupsPass_emits_children gs fuel gs gid g n hg hn (hall (gid, g) hg)
    refine ⟨hmem, flatPass_skip _ _ ?_⟩
    exact List.elem_iff.mpr hmem
  · decide

/-- Witness for C5 at the scenario-C model: node 6 (the member of
swimlane group 5) is recorded as emitted by the group pass. -/
theorem grouped_nodes_excluded_from_flat_pass_witness :
    some "6" ∈ (groupsPass builtC.1.groups 2 builtC.1.groups).2 :=
  (grouped_nodes_excluded_from_flat_pass.1 builtC.1.groups 2 "5"
    ⟨"Lane", [nodeC6]⟩ nodeC6 (by decide) (by decide) (by decide)).1

/-- C6 counterexample: in the model built from `rootN`, group 6 is a
member (child) of group 5 — so the claim says its subgraph block appears
exactly once, rendered only inside group 5's block — yet the emission
contains the `subgraph 6[…]` header twice: once nested inside group 5's
block and once more from the outer pass, which iterates over every
registered group rather than only the top-level ones. -/
theorem nested_group_block_twice :
    ((emit_mermaid 3 builtN.1 builtN.2 "TD" "flowchart").countP
        (fun l => containsChars "subgraph 6[".data l.data)) = 2 ∧
    ((lookupGroup builtN.1.groups "5").map (fun g => g.children.map (fun n => n.id)))
      = some [some "6"] ∧
    (lookupGroup builtN.1.groups "6").isSome = true :=
  ⟨by decide, by decide, by decide⟩

theorem empty_string_append (s : String) : "" ++ s = s := rfl

theorem emitSubgraphRec_header (gs : List (String × Group)) (fuel : Nat)
    (gid : String) (g : Group) (ls : List String)
    (h : emitSubgraphRec gs fuel gid g 0 = some ls) :
    ("subgraph " ++ gid ++ "[" ++ g.label ++ "]") ∈ ls := by
  cases fuel with
  | zero => exact absurd h (by simp [emitSubgraphRec])
  | succ f =>
    simp only [emitSubgraphRec] at h
    split at h
    · cases h
    · rw [Option.some.injEq] at h
      rw [← h]
      simp [indentStr, empty_string_append]

theorem groupsPass_headers (gs : List (String × Group)) (fuel : Nat)
    (l : List (String × Group)) (gid : String) (g : Group)
    (hg : (gid, g) ∈ l)
    (hsome : (emitSubgraphRec gs fuel gid g 0).isSome = true) :
    ("subgraph " ++ gid ++ "[" ++ g.label ++ "]") ∈ (groupsPass gs fuel l).1 := by
  induction l with
  | nil => cases hg
  | cons p rest ih =>
    obtain ⟨pgid, pg⟩ := p
    rcases List.mem_cons.mp hg with hhead | htail
    · obtain ⟨h1, h2⟩ := Prod.mk.injEq .. ▸ hhead
      subst h1
      subst h2
      obtain ⟨ls, hls⟩ := Option.isSome_iff_exists.mp hsome
      simp only [groupsPass, hls]
      exact List.mem_append_left _ (emitSubgraphRec_header gs fuel gid g ls hls)
    · have hrec := ih htail
      simp only [groupsPass]
      cases hout : emitSubgraphRec gs fuel pgid pg 0 with
      | none => exact hrec
      | some ls => exact List.mem_append_right _ hrec

/-- C6 amended: the outer pass of `_emit_mermaid` emits a top-level
subgraph block for every registered group — not only for the top-level
groups — in the index's insertion order: whenever a group's recursive
emission succeeds, its `subgraph <id>[<label>]` header appears among the
group-pass lines.  A nested group's block therefore appears both inside
its parent's block and again at top level, as the counterexample shows. -/
theorem every_group_gets_top_level_block
    (gs : List (String × Group)) (fuel : Nat) (gid : String) (g : Group)
    (hg : (gid, g) ∈ gs)
    (hsome : (emitSubgraphRec gs fuel gid g 0).isSome = true) :
    ("subgraph " ++ gid ++ "[" ++ g.label ++ "]") ∈ (groupsPass gs fuel gs).1 :=
  groupsPass_headers gs fuel gs gid g hg hsome

/-- Witness for the amended C6 at the nested model: the inner group 6,
although a member of group 5, gets its own top-level block. -/
theorem every_group_gets_top_level_block_witness :
    ("subgraph " ++ "6" ++ "[" ++ "Inner" ++ "]")
      ∈ (groupsPass builtN.1.groups 3 builtN.1.groups).1 :=
  every_group_gets_top_level_block builtN.1.groups 3 "6" ⟨"Inner", [nodeN7]⟩
    (by decide) (by decide)

/-- C7: when extraction yields a non-empty page list and the requested
index is outside `[0, pageCount)` — negative indices included — `convert`
raises `IndexError` in strict mode and converts page 0 in relaxed mode. -/
theorem out_of_range_index_policy
    (fallback : String → Bool → Except ConvErr (List String))
    (et : String → Option XmlElem) (input : String) (idx : Int)
    (direction diagramType : String) (fuel : Nat) (pages : List String)
    (hS : decompress_data fallback input true = Except.ok pages)
    (hR : decompress_data fallback input false = Except.ok pages)
    (hne : pages ≠ [])
    (hoor : idx < 0 ∨ (pages.length : Int) ≤ idx) :
    convert fallback et input idx direction diagramType true fuel
      = Except.error ConvErr.indexError ∧
    convert fallback et input idx direction diagramType false fuel
      = convert fallback et input 0 direction diagramType false fuel := by
  have hemp : pages.isEmpty = false := by
    cases pages with
    | nil => exact absurd rfl hne
    | cons a l => rfl
  have hlen : (0 : Int) < pages.length := by
    cases pages with
    | nil => exact absurd rfl hne
    | cons a l => simp
  have hcoreS : convertCore fallback et input idx direction diagramType true fuel
      = Except.error ConvErr.indexError := by
    simp only [convertCore, hS, hemp]
    rw [if_neg (by simp), if_pos hoor]
    simp
  have hcoreR : convertCore fallback et input idx direction diagramType false fuel
      = convertPage et pages 0 direction diagramType false fuel := by
    simp only [convertCore, hR, hemp]
    rw [if_neg (by simp), if_pos hoor, if_neg (by simp)]
  have hcoreR0 : convertCore fallback et input 0 direction diagramType false fuel
      = convertPage et pages 0 direction diagramType false fuel := by
    have h0 : ¬ ((0 : Int) < 0 ∨ (pages.length : Int) ≤ 0) := by
      push_neg
      exact ⟨le_refl 0, hlen⟩
    simp only [convertCore, hR, hemp]
    rw [if_neg (by simp), if_neg h0]
    rfl
  refine ⟨?_, ?_⟩
  · simp [convert, hcoreS]
  · simp [convert, hcoreR, hcoreR0]

/-- Witness for C7: page index 5 against the 1-page document produced by
a marker input. -/
theorem out_of_range_index_policy_witness :
    convert fbOther etFail "<mxGraphModel" 5 "TD" "flowchart" true 1
      = Except.error ConvErr.indexError ∧
    convert fbOther etFail "<mxGraphModel" 5 "TD" "flowchart" false 1
      = convert fbOther etFail "<mxGraphModel" 0 "TD" "flowchart" false 1 :=
  out_of_range_index_policy fbOther etFail "<mxGraphModel" 5 "TD" "flowchart" 1
    ["<mxGraphModel"] (by decide) (by decide) (by decide) (by decide)

/-- C8 counterexample: with the selected page `"<mxGraphModel"` (a marker
input whose normalized XML still has an unterminated tag, so the XML
parser rejects it), strict-mode `convert` raises `DiagramParsingError`
instead of returning the empty text the claim prescribes for both
modes. -/
theorem strict_parse_failure_raises :
    convert fbOther etFail "<mxGraphModel" 0 "TD" "flowchart" true 1
      = Except.error ConvErr.parsingError ∧
    (Except.error ConvErr.parsingError : Except ConvErr String) ≠ Except.ok "" :=
  ⟨by decide, by decide⟩

/-- C8 amended: when the selected page's XML cannot be parsed, `convert`
returns empty text in relaxed mode (the parse failure is swallowed and
`_parse_xml` hands back no root); in strict mode the same failure raises
`DiagramParsingError` instead, so the claim's policy-independent
empty-text return holds only under the relaxed policy. -/
theorem parse_failure_empty_text_relaxed
    (fallback : String → Bool → Except ConvErr (List String))
    (et : String → Option XmlElem) (input : String) (idx : Int)
    (direction diagramType : String) (fuel : Nat) (pages : List String)
    (page : String)
    (hR : decompress_data fallback input false = Except.ok pages)
    (hS : decompress_data fallback input true = Except.ok pages)
    (h0 : 0 ≤ idx) (hlt : idx < (pages.length : Int))
    (hpage : pages.get? idx.toNat = some page)
    (hparse : et (normalizeXml page) = none) :
    convert fallback et input idx direction diagramType false fuel
      = Except.ok "" ∧
    convert fallback et input idx direction diagramType true fuel
      = Except.error ConvErr.parsingError := by
  have hlen : (0 : Int) < pages.length := lt_of_le_of_lt h0 hlt
  have hne : pages ≠ [] := by
    intro hcontra
    rw [hcontra] at hlen
    exact absurd hlen (by decide)
  have hemp : pages.isEmpty = false := by
    cases pages with
    | nil => exact absurd rfl hne
    | cons a l => rfl
  have hoor : ¬ (idx < 0 ∨ (pages.length : Int) ≤ idx) := by
    push_neg
    exact ⟨h0, hlt⟩
  have hpg : ∀ strictMode,
      convertPage et pages idx.toNat direction diagramType strictMode fuel
        = (if strictMode then Except.error ConvErr.parsingError
           else Except.ok "") := by
    intro strictMode
    simp only [convertPage, hpage, Option.getD_some, parse_xml, hparse]
    cases strictMode <;> rfl
  have hcoreR : convertCore fallback et input idx direction diagramType false fuel
      = Except.ok "" := by
    simp only [convertCore, hR, hemp]
    rw [if_neg (by simp), if_neg hoor, hpg false]
    rfl
  have hcoreS : convertCore fallback et input idx direction diagramType true fuel
      = Except.error ConvErr.parsingError := by
    simp only [convertCore, hS, hemp]
    rw [if_neg (by simp), if_neg hoor, hpg true]
    rfl
  refine ⟨?_, ?_⟩
  · simp [convert, hcoreR]
  · simp [convert, hcoreS]

/-- Witness for the amended C8 at the concrete unparseable page. -/
theorem parse_failure_empty_text_relaxed_witness :
    convert fbOther etFail "<mxGraphModel" 0 "TD" "flowchart" false 1
      = Except.ok "" ∧
    convert fbOther etFail "<mxGraphModel" 0 "TD" "flowchart" true 1
      = Except.error ConvErr.parsingError :=
  parse_failure_empty_text_relaxed fbOther etFail "<mxGraphModel" 0 "TD"
    "flowchart" 1 ["<mxGraphModel"] "<mxGraphModel" (by decide) (by decide)
    (by decide) (by decide) (by decide) rfl

theorem emitChildrenWith_mono (gs : List (String × Group)) (indent : String)
    (f1 f2 : String → Group → Option (List String))
    (hf : ∀ i ng r, f1 i ng = some r → f2 i ng = some r) :
    ∀ (cs : List Node) (r : List String),
      emitChildrenWith f1 gs indent cs = some r →
      emitChildrenWith f2 gs indent cs = some r := by
  intro cs
  induction cs with
  | nil => intro r h; exact h
  | cons c rest ih =>
    intro r h
    cases hcg : childGroup gs c with
    | some p =>
      obtain ⟨i, ng⟩ := p
      cases hf1 : f1 i ng with
      | none =>
        simp only [emitChildrenWith, hcg, hf1] at h
        cases h
      | some ls =>
        cases hrest : emitChildrenWith f1 gs indent rest with
        | none =>
          simp only [emitChildrenWith, hcg, hf1, hrest] at h
          cases h
        | some ls2 =>
          simp only [emitChildrenWith, hcg, hf1, hrest] at h
          simp only [emitChildrenWith, hcg, hf i ng ls hf1, ih ls2 hrest]
          exact h
    | none =>
      cases hfn : format_node c with
      | none =>
        simp only [emitChildrenWith, hcg, hfn] at h ⊢
        exact ih r h
      | some ln =>
        cases hrest : emitChildrenWith f1 gs indent rest with
        | none =>
          simp only [emitChildrenWith, hcg, hfn, hrest] at h
          cases h
        | some ls2 =>
          simp only [emitChildrenWith, hcg, hfn, hrest] at h
          simp only [emitChildrenWith, hcg, hfn, ih ls2 hrest]
          exact h

theorem emitSubgraphRec_mono (gs : List (String × Group)) :
    ∀ (fuel fuel' : Nat), fuel ≤ fuel' →
      ∀ (gid : String) (g : Group) (ind : Nat) (ls : List String),
        emitSubgraphRec gs fuel gid g ind = some ls →
        emitSubgraphRec gs fuel' gid g ind = some ls := by
  intro fuel
  induction fuel with
  | zero =>
    intro fuel' _ gid g ind ls h
    exact absurd h (by simp [emitSubgraphRec])
  | succ f ih =>
    intro fuel' hle gid g ind ls h
    obtain ⟨f', rfl⟩ : ∃ f', fuel' = f' + 1 := ⟨fuel' - 1, by omega⟩
    have hff : f ≤ f' := by omega
    cases hc : emitChildrenWith (fun cid ng => emitSubgraphRec gs f cid ng (ind + 1))
        gs (indentStr ind) g.children with
    | none =>
      simp only [emitSubgraphRec, hc] at h
      cases h
    | some body =>
      have hc2 := emitChildrenWith_mono gs (indentStr ind)
        (fun cid ng => emitSubgraphRec gs f cid ng (ind + 1))
        (fun cid ng => emitSubgraphRec gs f' cid ng (ind + 1))
        (fun i ng r hr => ih f' hff i ng (ind + 1) r hr)
        g.children body hc
      simp only [emitSubgraphRec, hc] at h
      simp only [emitSubgraphRec, hc2]
      exact h

theorem emitChildrenWith_total (gs : List (String × Group)) (indent : String)
    (ind : Nat) :
    ∀ cs : List Node,
      (∀ c ∈ cs, ∀ i ng, childGroup gs c = some (i, ng) →
        ∃ f, (emitSubgraphRec gs f i ng ind).isSome = true) →
      ∃ F, (emitChildrenWith (fun i ng => emitSubgraphRec gs F i ng ind)
        gs indent cs).isSome = true := by
  intro cs
  induction cs with
  | nil =>
    intro _
    exact ⟨0, rfl⟩
  | cons c rest ih =>
    intro hall
    obtain ⟨F2, hF2⟩ := ih (fun c' hc' => hall c' (List.mem_cons_of_mem _ hc'))
    obtain ⟨ls2, hls2⟩ := Option.isSome_iff_exists.mp hF2
    cases hcg : childGroup gs c with
    | none =>
      refine ⟨F2, ?_⟩
      cases hfn : format_node c with
      | none =>
        simp only [emitChildrenWith, hcg, hfn]
        exact hF2
      | some ln =>
        simp only [emitChildrenWith, hcg, hfn, hls2]
        rfl
    | some p =>
      obtain ⟨i, ng⟩ := p
      obtain ⟨f1, hf1⟩ := hall c (List.mem_cons_self c rest) i ng hcg
      obtain ⟨ls1, hls1⟩ := Option.isSome_iff_exists.mp hf1
      refine ⟨max f1 F2, ?_⟩
      have h1 : emitSubgraphRec gs (max f1 F2) i ng ind = some ls1 :=
        emitSubgraphRec_mono gs f1 (max f1 F2) (le_max_left _ _) i ng ind ls1 hls1
      have h2 : emitChildrenWith (fun i' ng' => emitSubgraphRec gs (max f1 F2) i' ng' ind)
          gs indent rest = some ls2 :=
        emitChildrenWith_mono gs indent
          (fun i' ng' => emitSubgraphRec gs F2 i' ng' ind)
          (fun i' ng' => emitSubgraphRec gs (max f1 F2) i' ng' ind)
          (fun i' ng' r hr =>
            emitSubgraphRec_mono gs F2 (max f1 F2) (le_max_right _ _) i' ng' ind r hr)
          rest ls2 hls2
      simp only [emitChildrenWith, hcg, h1, h2]
      rfl

/-- C10: if the group-membership relation is acyclic — formalized as
well-foundedness of the recursion relation `groupStep` that carries the
emitter from a group to a registered nested group — then the recursive
subgraph emission of every registered group terminates: some finite fuel
makes the fuel-indexed embedding succeed (it returns `none` exactly when
the unguarded Python recursion would still be descending when the fuel
runs out). -/
theorem subgraph_emission_terminates
    (gs : List (String × Group))
    (hacyc : WellFounded (fun c p => groupStep gs p c)) :
    ∀ (gid : String) (g : Group) (ind : Nat),
      lookupGroup gs gid = some g →
      ∃ fuel, (emitSubgraphRec gs fuel gid g ind).isSome = true := by
  intro gid
  refine hacyc.induction
    (C := fun gid => ∀ (g : Group) (ind : Nat), lookupGroup gs gid = some g →
      ∃ fuel, (emitSubgraphRec gs fuel gid g ind).isSome = true)
    gid ?_
  intro x IH g ind hlook
  have hch : ∀ c ∈ g.children, ∀ i ng, childGroup gs c = some (i, ng) →
      ∃ f, (emitSubgraphRec gs f i ng (ind + 1)).isSome = true := by
    intro c hc i ng hcg
    have hdec : c.id = some i ∧ lookupGroup gs i = some ng := by
      cases hci : c.id with
      | none =>
        simp only [childGroup, hci] at hcg
        exact Option.noConfusion hcg
      | some j =>
        cases hlg : lookupGroup gs j with
        | none =>
          simp only [childGroup, hci, hlg] at hcg
          exact Option.noConfusion hcg
        | some g' =>
          simp only [childGroup, hci, hlg, Option.some.injEq, Prod.mk.injEq] at hcg
          obtain ⟨h1, h2⟩ := hcg
          subst h1
          subst h2
          exact ⟨rfl, hlg⟩
    have hstep : groupStep gs x i :=
      ⟨g, hlook, ⟨c, hc, hdec.1⟩, by rw [hdec.2]; rfl⟩
    exact IH i hstep ng (ind + 1) hdec.2
  obtain ⟨F, hF⟩ := emitChildrenWith_total gs (indentStr ind) (ind + 1) g.children hch
  obtain ⟨body, hbody⟩ := Option.isSome_iff_exists.mp hF
  refine ⟨F + 1, ?_⟩
  simp only [emitSubgraphRec]
  rw [hbody]
  rfl

/-- Witness for C10 at the acyclic one-group model `gsW` (whose recursion
relation is empty, hence well-founded). -/
theorem subgraph_emission_terminates_witness :
    ∃ fuel, (emitSubgraphRec gsW fuel "5" groupW 0).isSome = true := by
  have hnostep : ∀ p c, ¬ groupStep gsW p c := by
    rintro p c ⟨g, hg, ⟨n, hn, hid⟩, hc⟩
    by_cases hp : ("5" : String) = p
    · subst hp
      have hgW : groupW = g := by
        simpa [lookupGroup, gsW, List.find?] using hg
      subst hgW
      have hn6 : n = nodeW6 := by
        simpa [groupW] using hn
      subst hn6
      have hc6 : "6" = c := by
        simpa [nodeW6] using hid
      subst hc6
      exact absurd hc (by decide)
    · have hbeq : (("5" : String) == p) = false := beq_eq_false_iff_ne.mpr hp
      have hnone : lookupGroup gsW p = none := by
        simp [lookupGroup, gsW, List.find?, hbeq]
      rw [hnone] at hg
      cases hg
  have hwf : WellFounded (fun c p => groupStep gsW p c) :=
    ⟨fun a => Acc.intro a (fun y hy => absurd hy (hnostep a y))⟩
  exact subgraph_emission_terminates gsW hwf "5" groupW 0 (by decide)

end FlowForge
